import Mathlib

/-!
Verification of the signed-token authentication subsystem and the
route-discovery / guard-chain dispatch engine of the express.ts.typeorm
scaffold.

The development shallowly embeds the TypeScript sources:
* `src/util.ts` (namespace `Security.Token`: `createToken`, `decodeToken`;
  `ArrayUtils.optional`; the `HttpServer` guard chain, route registration
  and the error-reporting middleware),
* `src/http/util.ts` (`Routing.prefixPath`, `Routing.prefixPaths`,
  `RestError`),
* the constants module (`API_V0`, `ERROR_CODES`) and the example test
  routes.

External collaborators are embedded as parameters or as faithful models of
the library primitives actually used:
* the `nobi` HMAC signer is parameterized by its keyed signature function
  `sig : String → String → String` (key → data → signature); `nobi.sign`
  returns `data ++ "." ++ sig key data` and `nobi.unsign` splits at the
  last dot and compares signatures, as the library does;
* `Buffer.from(s).toString("base64")` / `Buffer.from(s, "base64")
  .toString("ascii")` are implemented concretely (`encodeBase64`,
  `decodeBase64`); Node's lenient decoder is modelled by filtering to the
  base64 alphabet; the "ascii" decoding masks each byte to 7 bits;
* the JavaScript numeric coercion `x * 1` applied to the decoded timestamp
  string is modelled on its decimal-natural fragment (`jsNumber`): the
  empty string coerces to 0 and a string of decimal digits to its value,
  anything else to NaN (`none`);
* `Date.prototype.setTime` yields an invalid date outside
  ±8,640,000,000,000,000 ms (`maxDateMillis`);
* `User.findOne({snowflake})` is parameterized as
  `lookup : String → Option User`;
* JavaScript mutation (route objects, the express layer stack, the
  module-level request counter) is modelled by explicit state passing.
-/

/-- The JavaScript `token.split(".")` on the character list: every
occurrence of the separator starts a new chunk; the empty string splits to
one empty chunk. -/
def splitDotChars : List Char → List (List Char)
  | [] => [[]]
  | c :: rest =>
    if c = '.' then [] :: splitDotChars rest
    else
      match splitDotChars rest with
      | [] => [[c]]
      | g :: gs => (c :: g) :: gs

/-- The JavaScript `token.split(".")`. -/
def splitDot (s : String) : List String :=
  (splitDotChars s.data).map String.mk

/-- Join chunks back with the dot separator (inverse of `splitDotChars`). -/
def joinDots : List (List Char) → List Char
  | [] => []
  | [x] => x
  | x :: xs => x ++ '.' :: joinDots xs

/-- Split a character list at its last dot, as `nobi`'s unsign does with
the separator; `none` when no dot occurs. -/
def rsplitAux : List Char → Option (List Char × List Char)
  | [] => none
  | c :: rest =>
    match rsplitAux rest with
    | some (pre, suf) => some (c :: pre, suf)
    | none => if c = '.' then some ([], rest) else none

/-- Split a string at its last dot. -/
def rsplitDot (s : String) : Option (String × String) :=
  (rsplitAux s.data).map (fun pr => (String.mk pr.1, String.mk pr.2))

/-- The string contains no dot (so a `split(".")` leaves it whole). -/
def hasNoDot (s : String) : Prop := '.' ∉ s.data

instance (s : String) : Decidable (hasNoDot s) := by
  unfold hasNoDot; infer_instance

/-- Every character is 7-bit ASCII, the fragment on which Node's
byte-level string codecs round-trip. -/
def isAsciiStr (s : String) : Prop := ∀ c ∈ s.data, c.toNat < 128

instance (s : String) : Decidable (isAsciiStr s) := by
  unfold isAsciiStr; infer_instance

/-- The base64 alphabet used by `Buffer`. -/
def b64AlphabetChars : List Char :=
  "ABCDEFGHIJKLMNOPQRSTUVWXYZabcdefghijklmnopqrstuvwxyz0123456789+/".data

/-- Character for a sextet value. -/
def b64Char (n : Nat) : Char := b64AlphabetChars.getD n 'A'

/-- Membership in the base64 alphabet (padding excluded). -/
def isB64 (c : Char) : Bool := b64AlphabetChars.contains c

/-- Sextet value of an alphabet character. -/
def b64Index (c : Char) : Nat := b64AlphabetChars.indexOf c

/-- Base64-encode a byte list, three bytes to four characters, padding
with `=` as `Buffer.toString("base64")` does. -/
def encodeGroups : List Nat → List Char
  | [] => []
  | [b0] => [b64Char (b0 / 4), b64Char (b0 % 4 * 16), '=', '=']
  | [b0, b1] => [b64Char (b0 / 4), b64Char (b0 % 4 * 16 + b1 / 16), b64Char (b1 % 16 * 4), '=']
  | b0 :: b1 :: b2 :: rest =>
    b64Char (b0 / 4) :: b64Char (b0 % 4 * 16 + b1 / 16) ::
      b64Char (b1 % 16 * 4 + b2 / 64) :: b64Char (b2 % 64) :: encodeGroups rest

/-- Rebuild bytes from sextet values, four sextets to three bytes; a
trailing lone sextet is dropped, as Node's decoder drops it. -/
def decodeQuads : List Nat → List Nat
  | s0 :: s1 :: s2 :: s3 :: rest =>
    (s0 * 4 + s1 / 16) :: (s1 % 16 * 16 + s2 / 4) :: (s2 % 4 * 64 + s3) :: decodeQuads rest
  | [s0, s1] => [s0 * 4 + s1 / 16]
  | [s0, s1, s2] => [s0 * 4 + s1 / 16, s1 % 16 * 16 + s2 / 4]
  | _ => []

/-- Sextet values of a string's characters, ignoring characters outside
the alphabet (Node's lenient base64 parsing; this also consumes the `=`
padding). -/
def sextets (l : List Char) : List Nat :=
  (l.filter isB64).map b64Index

/-- Bytes of a string, `Buffer.from(s)` on the single-byte fragment. -/
def strBytes (s : String) : List Nat := s.data.map (fun c => c.toNat % 256)

/-- Node's `buffer.toString("ascii")`: each byte masked to 7 bits. -/
def bytesToAscii (bs : List Nat) : String :=
  String.mk (bs.map (fun b => Char.ofNat (b % 128)))

/-- The local `encodeBase64` of `Security.Token`:
`Buffer.from(data).toString("base64")`. -/
def encodeBase64 (data : String) : String :=
  String.mk (encodeGroups (strBytes data))

/-- The local `decodeBase64` of `Security.Token`:
`Buffer.from(data, "base64").toString("ascii")`. -/
def decodeBase64 (data : String) : String :=
  bytesToAscii (decodeQuads (sextets data.data))

/-- Decimal value of a digit list (left fold, most significant first). -/
def decVal (l : List Char) : Nat :=
  l.foldl (fun a c => a * 10 + (c.toNat - 48)) 0

/-- The JavaScript numeric coercion `s * 1` on its decimal-natural
fragment: the empty string coerces to `0`, a digit string to its value,
anything else to NaN (`none`). -/
def jsNumber (s : String) : Option Nat :=
  if s.data = [] then some 0
  else if s.data.all Char.isDigit then some (decVal s.data) else none

/-- Decimal rendering loop for `Date.now() + ""`; the first argument is
structural fuel, at least the digit count. -/
def natToDecAux : Nat → Nat → List Char → List Char
  | 0, _, acc => acc
  | fuel + 1, n, acc =>
    if n = 0 then acc else natToDecAux fuel (n / 10) (Nat.digitChar (n % 10) :: acc)

/-- JavaScript number-to-string on naturals, `Date.now() + ""`. -/
def natToDec (n : Nat) : String :=
  if n = 0 then "0" else String.mk (natToDecAux n n [])

/-- Largest epoch-milliseconds value a JavaScript `Date` accepts;
`setTime` beyond it yields an invalid date (`NaN` time). -/
def maxDateMillis : Nat := 8640000000000000

/-- The persisted principal (`src/database/entities/User.ts`); the Mongo
object id column is irrelevant to the token subsystem and omitted. -/
structure User where
  snowflake : String
  username : String
  password : Option String
  salt : String
deriving DecidableEq, Repr

/-- Result of a successful `Security.Token.decodeToken`; the `Date` is
represented by its epoch milliseconds. -/
structure DecodedToken where
  snowflake : String
  timestamp : Nat
  hmac : String
  user : User
deriving DecidableEq, Repr

/-- The `nobi` signer's `sign`: value, separator, keyed signature. -/
def nobiSign (sig : String → String → String) (key data : String) : String :=
  data ++ "." ++ sig key data

/-- The `nobi` signer's `unsign`: split at the last separator, verify the
signature over the value part; `none` models the throw on a missing
separator or a signature mismatch. -/
def nobiUnsign (sig : String → String → String) (key signed : String) : Option String :=
  match rsplitDot signed with
  | none => none
  | some (value, sigPart) => if sig key value = sigPart then some value else none

/-- The source `Security.Token.createToken` on a `User` argument; the `Date.now()`
read is the explicit `now` parameter. -/
def createToken (sig : String → String → String) (user : User) (now : Nat) : String :=
  let snowflakeBase64 := encodeBase64 user.snowflake
  let timestampBase64 := encodeBase64 (natToDec now)
  let dataToSign := snowflakeBase64 ++ "." ++ timestampBase64
  nobiSign sig user.salt dataToSign

/-- The source `Security.Token.decodeToken`: split on the dot, require exactly three
chunks, coerce the decoded timestamp, require a valid date, resolve the
principal, verify the signature with the principal's current salt, and
compare the unsigned value against the first two chunks. Every failure
returns the same `none` (the TypeScript `null`). -/
def decodeToken (sig : String → String → String) (lookup : String → Option User)
    (token : String) : Option DecodedToken :=
  let chunks := splitDot token
  if chunks.length = 3 then
    let snowflakeBase64 := chunks.getD 0 ""
    let timestampBase64 := chunks.getD 1 ""
    let snowflake := decodeBase64 snowflakeBase64
    match jsNumber (decodeBase64 timestampBase64) with
    | none => none
    | some timestampEpoch =>
      if timestampEpoch ≤ maxDateMillis then
        match lookup snowflake with
        | none => none
        | some user =>
          match nobiUnsign sig user.salt token with
          | none => none
          | some hmacData =>
            if hmacData = snowflakeBase64 ++ "." ++ timestampBase64 then
              some { snowflake := snowflake, timestamp := timestampEpoch,
                     hmac := hmacData, user := user }
            else none
      else none
  else none

/-- Observable event during a request's guard chain. -/
inductive ChainEvent where
  | guardRun (gid : Nat)
  | write (resp : String)
  | handlerRun
deriving DecidableEq, Repr

/-- Defunctionalized guard: `gid` is the function's reference identity
(the `previous === guard` comparison), `writes` an optional response the
guard writes, `proceeds` how many times it calls its `next` continuation. -/
structure GuardSpec where
  gid : Nat
  writes : Option String
  proceeds : Nat
deriving DecidableEq, Repr

/-- The per-request mutable chain state of `HttpServer.loadRoute`:
`currentIndex`, `previous`, and the observable event log. -/
structure ChainState where
  idx : Nat
  prev : Option Nat
  trace : List ChainEvent
deriving DecidableEq, Repr

/-- Events emitted by running one guard body. -/
def guardEvents (g : GuardSpec) : List ChainEvent :=
  ChainEvent.guardRun g.gid ::
    (match g.writes with
     | some r => [ChainEvent.write r]
     | none => [])

/-- One invocation of the closure `next`: fetch `guards[currentIndex++]`;
if the slot is empty or holds the previously invoked guard, the terminal
route handler runs (its continuation is `() => null`, scheduling
nothing); otherwise the fetched guard runs, becoming `previous` and
scheduling its own `proceed` calls. Returns the new state and the number
of additional `next` invocations scheduled. -/
def chainStep (guards : List GuardSpec) (s : ChainState) : ChainState × Nat :=
  match guards[s.idx]? with
  | none =>
    ({ s with idx := s.idx + 1, trace := s.trace ++ [ChainEvent.handlerRun] }, 0)
  | some g =>
    if s.prev = some g.gid then
      ({ s with idx := s.idx + 1, trace := s.trace ++ [ChainEvent.handlerRun] }, 0)
    else
      ({ idx := s.idx + 1, prev := some g.gid, trace := s.trace ++ guardEvents g },
        g.proceeds)

/-- Run pending `next` invocations to completion. Each invocation's
behaviour depends only on the shared mutable state, so the nested calls
of the source collapse to a pending counter; `fuel` bounds the number of
invocations, `none` meaning the bound was hit. -/
def chainExec (fuel : Nat) (guards : List GuardSpec) (s : ChainState)
    (pending : Nat) : Option ChainState :=
  match pending with
  | 0 => some s
  | p + 1 =>
    match fuel with
    | 0 => none
    | f + 1 =>
      let r := chainStep guards s
      chainExec f guards r.1 (p + r.2)

/-- A request enters the chain through the initial `next()` call with
index 0 and no previous guard. -/
def chainStart (fuel : Nat) (guards : List GuardSpec) : Option ChainState :=
  chainExec fuel guards { idx := 0, prev := none, trace := [] } 1

/-- Total `proceed` calls the guards from position `idx` on can make. -/
def sumFromIdx (guards : List GuardSpec) (idx : Nat) : Nat :=
  ((guards.drop idx).map GuardSpec.proceeds).sum

/-- Total `proceed` calls of the whole chain. -/
def sumProceeds (guards : List GuardSpec) : Nat := sumFromIdx guards 0

/-- The request methods the route validator accepts. -/
inductive HttpMethod where
  | get
  | post
  | options
  | patch
  | delete
deriving DecidableEq, Repr

/-- The `opts` object of a route descriptor; middleware entries are
opaque and represented by identifiers. -/
structure RouteOpts where
  path : String
  method : HttpMethod
  classicMiddleware : Option (List Nat)
  guards : Option (List GuardSpec)
deriving DecidableEq, Repr

/-- A route descriptor (`Route` of `src/http/index.ts`); the handler and
optional error handler are opaque and represented by identifiers. -/
structure Route where
  opts : RouteOpts
  handlerId : Nat
  errorId : Option Nat
deriving DecidableEq, Repr

/-- The source `Routing.prefixPath`: rewrite `opts.path` to the prefixed path. The
source mutates the argument and returns it; the pure embedding returns
the updated value. -/
def prefixPath (route : Route) (pre : String) : Route :=
  { route with opts := { route.opts with path := pre ++ "/" ++ route.opts.path } }

/-- The source `Routing.prefixPaths`: apply `prefixPath` to every element; the
source's in-place loop over the list becomes a map. -/
def prefixPaths (routes : List Route) (pre : String) : List Route :=
  routes.map (fun r => prefixPath r pre)

/-- Input to `HttpServer.loadRoute`: either a descriptor that passes the
`isRoute` shape check or a malformed export that fails it. -/
inductive RawRoute where
  | valid (r : Route)
  | malformed (tag : String)
deriving DecidableEq, Repr

/-- One entry of the express routing stack, produced by
`this.server[method](path, ..., handler)`. -/
structure RouteLayer where
  method : HttpMethod
  path : String
  handlerId : Nat
deriving DecidableEq, Repr

/-- The express application state the loader mutates: the ordered layer
stack and the warnings logged so far. -/
structure ServerState where
  layers : List RouteLayer
  warnings : List String
deriving DecidableEq, Repr

/-- The source `HttpServer.loadRoute`: a malformed export is dropped with a warning;
a valid descriptor is appended to the express stack. No collision check
of any kind is performed against already-registered `(method, path)`
pairs. -/
def loadRoute (s : ServerState) (r : RawRoute) : ServerState :=
  match r with
  | RawRoute.malformed _ =>
    { s with warnings := s.warnings ++ ["Not loading an invalid route in express"] }
  | RawRoute.valid r =>
    { s with layers :=
        s.layers ++ [{ method := r.opts.method, path := r.opts.path,
                       handlerId := r.handlerId }] }

/-- Registering a discovered list of descriptors in order
(`loadFile` looping over an array export). -/
def loadRoutes (s : ServerState) (rs : List RawRoute) : ServerState :=
  rs.foldl loadRoute s

/-- Express dispatch over the layer stack: the first layer whose method
and path match handles the request. -/
def dispatchLookup (s : ServerState) (m : HttpMethod) (p : String) : Option Nat :=
  (s.layers.find? (fun l => decide (l.method = m) && decide (l.path = p))).map
    RouteLayer.handlerId

/-- A response body: either the standard `message`/`code` shape of
`StandardRestError` (the optional `fields` map is omitted as unused by
the routes under study) or an arbitrary custom object. -/
inductive RestBody where
  | std (message : String) (code : Nat)
  | custom (payload : String)
deriving DecidableEq, Repr

/-- A `RestError` value: its body and its `statusCode` property, which is
`undefined` (`none`) unless assigned. -/
structure RestErrorVal where
  body : RestBody
  statusCode : Option Nat
deriving DecidableEq, Repr

/-- The source `RestError.INTERNAL_ERROR(ref)`: the fixed 500 envelope carrying the
tracking reference and the reserved internal-error code 1002. -/
def restErrorInternal (ref : String) : RestErrorVal :=
  { body := RestBody.std ("Internal error occurred. Tracking number: " ++ ref) 1002,
    statusCode := some 500 }

/-- A value thrown by a guard or handler: a `RestError` instance or any
other error, carried with its internal detail text. -/
inductive ErrValue where
  | rest (e : RestErrorVal)
  | other (detail : String)
deriving DecidableEq, Repr

/-- The response the error middleware sends. -/
structure HttpResponse where
  status : Nat
  body : RestBody
deriving DecidableEq, Repr

/-- The error-reporting middleware of `HttpServer.loadServer`. `transmit`
uses the error's `statusCode` when it is a number and 400 otherwise. A
`RestError` is transmitted as-is with no logging; any other error is
answered with the `INTERNAL_ERROR` envelope built from a fresh random
tracking reference (the explicit `ref` parameter) and the internal detail
is logged beside that reference, never transmitted. Returns the response
and the log lines written. -/
def errorMiddleware (ref : String) (err : ErrValue) : HttpResponse × List String :=
  match err with
  | ErrValue.rest e =>
    ({ status := match e.statusCode with | some n => n | none => 400,
       body := e.body }, [])
  | ErrValue.other detail =>
    ({ status := 500, body := (restErrorInternal ref).body },
     ["------- error reported", "tracking ref: " ++ ref, detail, "------- eof"])

/-- The constants module's route-prefixing helper: every value of the
record gets the prefix prepended. -/
def prefixConsts (routes : List (String × String)) (pre : String) : List (String × String) :=
  routes.map (fun kv => (kv.1, pre ++ kv.2))

/-- The `API_V0` record after prefixing. -/
def apiV0 : List (String × String) :=
  prefixConsts [("TEST_1", "/test/1"), ("TEST_2", "/test/2")] "/api/v0"

/-- The source constant `ERROR_CODES.TEST_2`. -/
def errorCodesTest2 : Nat := 1002

/-- The JSON body the first test route sends. -/
structure TestResponse where
  test : String
  number : Nat
deriving DecidableEq, Repr

/-- The `TEST_1` handler body: `res.json({test: "successful", number:
testIncr++})` — responds with the current counter, then increments it. -/
def test1Handler (testIncr : Nat) : TestResponse × Nat :=
  ({ test := "successful", number := testIncr }, testIncr + 1)

/-- The module-level counter after `k` requests; `let testIncr = 0`
initializes it at module load. -/
def test1After : Nat → Nat
  | 0 => 0
  | k + 1 => (test1Handler (test1After k)).2

/-- The body sent to the `n`-th request (counting from 1). -/
def test1ResponseAt (n : Nat) : TestResponse :=
  (test1Handler (test1After (n - 1))).1

/-- The error the `TEST_2` handler throws:
`new RestError("Success!", ERROR_CODES.TEST_2)`; the two-argument
constructor leaves `statusCode` unassigned. -/
def test2Thrown : RestErrorVal :=
  { body := RestBody.std "Success!" errorCodesTest2, statusCode := none }

/-- A JavaScript value, as far as truthiness is concerned; `NaN` is its
own constructor since it is the one number beside 0 that is falsy. -/
inductive JSValue where
  | vNull
  | vUndefined
  | vBool (b : Bool)
  | vNum (n : Int)
  | vNaN
  | vStr (s : String)
  | vObj (oid : Nat)
deriving DecidableEq, Repr

/-- JavaScript truthiness. -/
def truthy : JSValue → Bool
  | JSValue.vNull => false
  | JSValue.vUndefined => false
  | JSValue.vBool b => b
  | JSValue.vNum n => decide (n ≠ 0)
  | JSValue.vNaN => false
  | JSValue.vStr s => decide (s ≠ "")
  | JSValue.vObj _ => true

namespace ArrayUtils

/-- The source `ArrayUtils.optional`: `if (item) return [item]; return []` — the
truthiness test, not a null check, decides. -/
def optional (item : JSValue) : List JSValue :=
  if truthy item then [item] else []

end ArrayUtils

/-- Fixture: a deterministic keyed signature whose output, being base64,
contains no separator — the shape of a real HMAC-base64 signature. -/
def sigFx (key data : String) : String := encodeBase64 (key ++ "|" ++ data)

/-- Fixture principal. -/
def userFx : User :=
  { snowflake := "123", username := "alice", password := none, salt := "KEY" }

/-- Fixture store resolving only the fixture principal. -/
def lookupFx (s : String) : Option User :=
  if s = "123" then some userFx else none

/-- Fixture guard that calls `proceed` twice. -/
def guardFx : GuardSpec := { gid := 7, writes := none, proceeds := 2 }

/-- Fixture guard G1: proceeds once, writes nothing. -/
def guardFx1 : GuardSpec := { gid := 1, writes := none, proceeds := 1 }

/-- Fixture guard G2: writes a rejection and never proceeds. -/
def guardFx2 : GuardSpec := { gid := 2, writes := some "rejected", proceeds := 0 }

/-- Fixture route. -/
def routeFx1 : Route :=
  { opts := { path := "/x", method := HttpMethod.get, classicMiddleware := none,
              guards := none },
    handlerId := 1, errorId := none }

/-- Fixture route colliding with the first on `(method, path)`. -/
def routeFx2 : Route :=
  { opts := { path := "/x", method := HttpMethod.get, classicMiddleware := none,
              guards := none },
    handlerId := 2, errorId := none }

/-- Fixture client-facing error with an assigned status code. -/
def restFx : RestErrorVal := { body := RestBody.std "Bad" 1001, statusCode := some 403 }

theorem splitDotChars_ne_nil : ∀ l : List Char, splitDotChars l ≠ []
  | [] => by simp [splitDotChars]
  | c :: rest => by
    unfold splitDotChars
    split
    · simp
    · cases h : splitDotChars rest <;> simp

theorem splitDotChars_no_dot : ∀ l : List Char, '.' ∉ l → splitDotChars l = [l]
  | [], _ => rfl
  | c :: rest, h => by
    have hc : ¬(c = '.') := fun he => h (he ▸ List.mem_cons_self c rest)
    have hr : '.' ∉ rest := fun hm => h (List.mem_cons_of_mem c hm)
    unfold splitDotChars
    rw [if_neg hc, splitDotChars_no_dot rest hr]

theorem splitDotChars_append : ∀ l1 l2 : List Char, '.' ∉ l1 →
    splitDotChars (l1 ++ '.' :: l2) = l1 :: splitDotChars l2
  | [], l2, _ => by
    show splitDotChars ('.' :: l2) = [] :: splitDotChars l2
    simp only [splitDotChars, if_pos]
  | c :: l1, l2, h => by
    have hc : ¬(c = '.') := fun he => h (he ▸ List.mem_cons_self c l1)
    have hr : '.' ∉ l1 := fun hm => h (List.mem_cons_of_mem c hm)
    show splitDotChars (c :: (l1 ++ '.' :: l2)) = (c :: l1) :: splitDotChars l2
    simp only [splitDotChars]
    rw [if_neg hc, splitDotChars_append l1 l2 hr]

theorem joinDots_splitDotChars : ∀ l : List Char, joinDots (splitDotChars l) = l
  | [] => rfl
  | c :: rest => by
    unfold splitDotChars
    by_cases hc : c = '.'
    · rw [if_pos hc]
      obtain ⟨g, gs, hg⟩ := List.exists_cons_of_ne_nil (splitDotChars_ne_nil rest)
      have ih := joinDots_splitDotChars rest
      rw [hg] at ih ⊢
      show joinDots ([] :: g :: gs) = c :: rest
      unfold joinDots
      simpa [hc] using ih
    · rw [if_neg hc]
      obtain ⟨g, gs, hg⟩ := List.exists_cons_of_ne_nil (splitDotChars_ne_nil rest)
      have ih := joinDots_splitDotChars rest
      rw [hg] at ih ⊢
      cases gs with
      | nil => simpa [joinDots] using congrArg (c :: ·) ih
      | cons g2 gs' => simpa [joinDots] using congrArg (c :: ·) ih

theorem splitDotChars_parts : ∀ l : List Char, ∀ p ∈ splitDotChars l, '.' ∉ p
  | [], p, hp => by
    simp [splitDotChars] at hp
    simp [hp]
  | c :: rest, p, hp => by
    unfold splitDotChars at hp
    by_cases hc : c = '.'
    · rw [if_pos hc] at hp
      rcases List.mem_cons.mp hp with h | h
      · simp [h]
      · exact splitDotChars_parts rest p h
    · rw [if_neg hc] at hp
      obtain ⟨g, gs, hg⟩ := List.exists_cons_of_ne_nil (splitDotChars_ne_nil rest)
      rw [hg] at hp
      rcases List.mem_cons.mp hp with h | h
      · subst h
        intro hm
        rcases List.mem_cons.mp hm with h2 | h2
        · exact hc h2.symm
        · exact splitDotChars_parts rest g (hg ▸ List.mem_cons_self g gs) h2
      · exact splitDotChars_parts rest p (hg ▸ List.mem_cons_of_mem g h)

theorem strMk_data (s : String) : String.mk s.data = s := rfl

theorem splitDot_of_data (t a b c : String)
    (ht : t.data = a.data ++ '.' :: (b.data ++ '.' :: c.data))
    (ha : hasNoDot a) (hb : hasNoDot b) (hc : hasNoDot c) :
    splitDot t = [a, b, c] := by
  unfold splitDot
  rw [ht, splitDotChars_append _ _ ha, splitDotChars_append _ _ hb,
    splitDotChars_no_dot _ hc]
  simp [strMk_data]

theorem splitDot_three_inv (t a b c : String) (h : splitDot t = [a, b, c]) :
    t.data = a.data ++ '.' :: (b.data ++ '.' :: c.data) ∧
      hasNoDot a ∧ hasNoDot b ∧ hasNoDot c := by
  unfold splitDot at h
  obtain ⟨l1, L, hL⟩ := List.map_eq_cons_iff.mp h
  obtain ⟨hl1, hrest⟩ := hL.2
  obtain ⟨l2, L2, hL2⟩ := List.map_eq_cons_iff.mp hrest
  obtain ⟨hl2, hrest2⟩ := hL2.2
  obtain ⟨l3, L3, hL3⟩ := List.map_eq_cons_iff.mp hrest2
  obtain ⟨hl3, hrest3⟩ := hL3.2
  have hL3nil : L3 = [] := List.map_eq_nil_iff.mp hrest3
  have hchars : splitDotChars t.data = [a.data, b.data, c.data] := by
    rw [hL.1, hL2.1, hL3.1, hL3nil, ← hl1, ← hl2, ← hl3]
  have hjoin := joinDots_splitDotChars t.data
  rw [hchars] at hjoin
  refine ⟨?_, ?_, ?_, ?_⟩
  · rw [← hjoin]
    simp [joinDots]
  · exact splitDotChars_parts t.data a.data (hchars ▸ by simp)
  · exact splitDotChars_parts t.data b.data (hchars ▸ by simp)
  · exact splitDotChars_parts t.data c.data (hchars ▸ by simp)

theorem rsplitAux_no_dot : ∀ l : List Char, '.' ∉ l → rsplitAux l = none
  | [], _ => rfl
  | c :: rest, h => by
    have hc : ¬(c = '.') := fun he => h (he ▸ List.mem_cons_self c rest)
    have hr : '.' ∉ rest := fun hm => h (List.mem_cons_of_mem c hm)
    unfold rsplitAux
    rw [rsplitAux_no_dot rest hr, if_neg hc]

theorem rsplitAux_last : ∀ p c : List Char, '.' ∉ c →
    rsplitAux (p ++ '.' :: c) = some (p, c)
  | [], c, hc => by
    show rsplitAux ('.' :: c) = some ([], c)
    unfold rsplitAux
    rw [rsplitAux_no_dot c hc, if_pos rfl]
  | x :: p, c, hc => by
    show rsplitAux (x :: (p ++ '.' :: c)) = some (x :: p, c)
    unfold rsplitAux
    rw [rsplitAux_last p c hc]

theorem rsplitDot_of_data (t pfx sfx : String)
    (ht : t.data = pfx.data ++ '.' :: sfx.data) (hs : hasNoDot sfx) :
    rsplitDot t = some (pfx, sfx) := by
  unfold rsplitDot
  rw [ht, rsplitAux_last _ _ hs]
  simp [strMk_data]

theorem getD_mem_or : ∀ (l : List Char) (n : Nat) (d : Char), l.getD n d ∈ l ∨ l.getD n d = d
  | [], _, _ => Or.inr rfl
  | c :: l, 0, d => Or.inl (List.mem_cons_self c l)
  | c :: l, n + 1, d => by
    rcases getD_mem_or l n d with h | h
    · exact Or.inl (List.mem_cons_of_mem c h)
    · exact Or.inr h

theorem b64Char_spec : ∀ n, n < 64 →
    isB64 (b64Char n) = true ∧ b64Char n ≠ '=' ∧ b64Index (b64Char n) = n := by
  decide

theorem isB64_pad : isB64 '=' = false := by decide

theorem b64Char_ne_dot (n : Nat) : b64Char n ≠ '.' := by
  unfold b64Char
  rcases getD_mem_or b64AlphabetChars n 'A' with h | h
  · intro he
    rw [he] at h
    revert h
    decide
  · rw [h]
    decide

theorem sextets_cons_b64 (c : Char) (l : List Char) (h : isB64 c = true) :
    sextets (c :: l) = b64Index c :: sextets l := by
  unfold sextets
  simp [List.filter_cons, h]

theorem sextets_cons_pad (l : List Char) : sextets ('=' :: l) = sextets l := by
  unfold sextets
  simp [List.filter_cons, isB64_pad]

theorem sextets_nil : sextets [] = [] := rfl

theorem encodeGroups_no_dot : ∀ bs : List Nat, ∀ c ∈ encodeGroups bs, c ≠ '.'
  | [], c, hc => by simp [encodeGroups] at hc
  | [b0], c, hc => by
    simp only [encodeGroups, List.mem_cons, List.not_mem_nil, or_false] at hc
    rcases hc with h | h | h | h <;>
      first
        | exact h ▸ b64Char_ne_dot _
        | (subst h; decide)
  | [b0, b1], c, hc => by
    simp only [encodeGroups, List.mem_cons, List.not_mem_nil, or_false] at hc
    rcases hc with h | h | h | h <;>
      first
        | exact h ▸ b64Char_ne_dot _
        | (subst h; decide)
  | b0 :: b1 :: b2 :: rest, c, hc => by
    simp only [encodeGroups, List.mem_cons] at hc
    rcases hc with h | h | h | h | h
    · exact h ▸ b64Char_ne_dot _
    · exact h ▸ b64Char_ne_dot _
    · exact h ▸ b64Char_ne_dot _
    · exact h ▸ b64Char_ne_dot _
    · exact encodeGroups_no_dot rest c h

theorem encodeBase64_no_dot (s : String) : hasNoDot (encodeBase64 s) := by
  unfold hasNoDot encodeBase64
  intro hm
  exact encodeGroups_no_dot (strBytes s) '.' hm rfl

theorem decodeQuads_encodeGroups : ∀ bs : List Nat, (∀ b ∈ bs, b < 256) →
    decodeQuads (sextets (encodeGroups bs)) = bs
  | [], _ => rfl
  | [b0], h => by
    have hb0 : b0 < 256 := h b0 (by simp)
    have h0 := b64Char_spec (b0 / 4) (by omega)
    have h1 := b64Char_spec (b0 % 4 * 16) (by omega)
    show decodeQuads (sextets [b64Char (b0 / 4), b64Char (b0 % 4 * 16), '=', '=']) = [b0]
    rw [sextets_cons_b64 _ _ h0.1, sextets_cons_b64 _ _ h1.1, sextets_cons_pad,
      sextets_cons_pad, sextets_nil, h0.2.2, h1.2.2]
    show [b0 / 4 * 4 + b0 % 4 * 16 / 16] = [b0]
    congr 1
    omega
  | [b0, b1], h => by
    have hb0 : b0 < 256 := h b0 (by simp)
    have hb1 : b1 < 256 := h b1 (by simp)
    have h0 := b64Char_spec (b0 / 4) (by omega)
    have h1 := b64Char_spec (b0 % 4 * 16 + b1 / 16) (by omega)
    have h2 := b64Char_spec (b1 % 16 * 4) (by omega)
    show decodeQuads (sextets [b64Char (b0 / 4), b64Char (b0 % 4 * 16 + b1 / 16),
      b64Char (b1 % 16 * 4), '=']) = [b0, b1]
    rw [sextets_cons_b64 _ _ h0.1, sextets_cons_b64 _ _ h1.1, sextets_cons_b64 _ _ h2.1,
      sextets_cons_pad, sextets_nil, h0.2.2, h1.2.2, h2.2.2]
    show [b0 / 4 * 4 + (b0 % 4 * 16 + b1 / 16) / 16,
      (b0 % 4 * 16 + b1 / 16) % 16 * 16 + b1 % 16 * 4 / 4] = [b0, b1]
    congr 1
    · omega
    · congr 1
      omega
  | b0 :: b1 :: b2 :: rest, h => by
    have hb0 : b0 < 256 := h b0 (by simp)
    have hb1 : b1 < 256 := h b1 (by simp)
    have hb2 : b2 < 256 := h b2 (by simp)
    have h0 := b64Char_spec (b0 / 4) (by omega)
    have h1 := b64Char_spec (b0 % 4 * 16 + b1 / 16) (by omega)
    have h2 := b64Char_spec (b1 % 16 * 4 + b2 / 64) (by omega)
    have h3 := b64Char_spec (b2 % 64) (by omega)
    have ih := decodeQuads_encodeGroups rest (fun b hb => h b (by simp [hb]))
    show decodeQuads (sextets (b64Char (b0 / 4) :: b64Char (b0 % 4 * 16 + b1 / 16) ::
      b64Char (b1 % 16 * 4 + b2 / 64) :: b64Char (b2 % 64) ::
      encodeGroups rest)) = b0 :: b1 :: b2 :: rest
    rw [sextets_cons_b64 _ _ h0.1, sextets_cons_b64 _ _ h1.1, sextets_cons_b64 _ _ h2.1,
      sextets_cons_b64 _ _ h3.1, h0.2.2, h1.2.2, h2.2.2, h3.2.2]
    show (b0 / 4 * 4 + (b0 % 4 * 16 + b1 / 16) / 16) ::
      ((b0 % 4 * 16 + b1 / 16) % 16 * 16 + (b1 % 16 * 4 + b2 / 64) / 4) ::
      ((b1 % 16 * 4 + b2 / 64) % 4 * 64 + b2 % 64) ::
      decodeQuads (sextets (encodeGroups rest)) = b0 :: b1 :: b2 :: rest
    rw [ih]
    congr 1
    · omega
    · congr 1
      · omega
      · congr 1
        omega

theorem strBytes_lt (s : String) : ∀ b ∈ strBytes s, b < 256 := by
  intro b hb
  unfold strBytes at hb
  obtain ⟨c, _, hc⟩ := List.mem_map.mp hb
  omega

theorem bytesToAscii_strBytes (s : String) (h : isAsciiStr s) :
    bytesToAscii (strBytes s) = s := by
  unfold bytesToAscii strBytes
  rw [List.map_map]
  have h2 : ∀ c ∈ s.data, ((fun b => Char.ofNat (b % 128)) ∘ fun c => c.toNat % 256) c = id c := by
    intro c hc
    have hlt := h c hc
    show Char.ofNat (c.toNat % 256 % 128) = c
    have h3 : c.toNat % 256 % 128 = c.toNat := by omega
    rw [h3, Char.ofNat_toNat]
  rw [List.map_congr_left h2, List.map_id]

theorem decodeBase64_encodeBase64 (s : String) (h : isAsciiStr s) :
    decodeBase64 (encodeBase64 s) = s := by
  unfold decodeBase64 encodeBase64
  show bytesToAscii (decodeQuads (sextets (encodeGroups (strBytes s)))) = s
  rw [decodeQuads_encodeGroups (strBytes s) (strBytes_lt s)]
  exact bytesToAscii_strBytes s h

theorem digitChar_spec : ∀ d, d < 10 →
    (Nat.digitChar d).isDigit = true ∧ (Nat.digitChar d).toNat = 48 + d := by
  decide

theorem natToDecAux_acc : ∀ (fuel n : Nat) (acc : List Char),
    natToDecAux fuel n acc = natToDecAux fuel n [] ++ acc
  | 0, n, acc => rfl
  | fuel + 1, n, acc => by
    by_cases hn : n = 0
    · simp [natToDecAux, hn]
    · show natToDecAux (fuel + 1) n acc = natToDecAux (fuel + 1) n [] ++ acc
      simp only [natToDecAux, if_neg hn]
      rw [natToDecAux_acc fuel (n / 10) (Nat.digitChar (n % 10) :: acc),
        natToDecAux_acc fuel (n / 10) [Nat.digitChar (n % 10)]]
      simp

theorem decVal_append_digit (xs : List Char) (c : Char) :
    decVal (xs ++ [c]) = decVal xs * 10 + (c.toNat - 48) := by
  unfold decVal
  rw [List.foldl_append]
  rfl

theorem decVal_natToDecAux : ∀ (fuel n : Nat), n < 10 ^ fuel →
    decVal (natToDecAux fuel n []) = n
  | 0, n, h => by
    have : n = 0 := by simpa using h
    simp [natToDecAux, decVal, this]
  | fuel + 1, n, h => by
    by_cases hn : n = 0
    · simp [natToDecAux, hn, decVal]
    · simp only [natToDecAux, if_neg hn]
      rw [natToDecAux_acc fuel (n / 10) [Nat.digitChar (n % 10)], decVal_append_digit]
      have hd := digitChar_spec (n % 10) (by omega)
      have hdiv : n / 10 < 10 ^ fuel := by
        rw [pow_succ] at h
        exact (Nat.div_lt_iff_lt_mul (by norm_num)).mpr h
      rw [decVal_natToDecAux fuel (n / 10) hdiv, hd.2]
      omega

theorem natToDecAux_digitsOf : ∀ (fuel n : Nat), ∀ c ∈ natToDecAux fuel n [],
    ∃ d, d < 10 ∧ c = Nat.digitChar d
  | 0, n, c, hc => by simp [natToDecAux] at hc
  | fuel + 1, n, c, hc => by
    by_cases hn : n = 0
    · simp [natToDecAux, hn] at hc
    · simp only [natToDecAux, if_neg hn] at hc
      rw [natToDecAux_acc fuel (n / 10) [Nat.digitChar (n % 10)]] at hc
      rcases List.mem_append.mp hc with h | h
      · exact natToDecAux_digitsOf fuel (n / 10) c h
      · refine ⟨n % 10, by omega, ?_⟩
        simpa using h

theorem natToDecAux_ne_nil (fuel n : Nat) (hf : fuel ≠ 0) (hn : n ≠ 0) :
    natToDecAux fuel n [] ≠ [] := by
  obtain ⟨f, rfl⟩ := Nat.exists_eq_succ_of_ne_zero hf
  simp only [natToDecAux, if_neg hn]
  rw [natToDecAux_acc f (n / 10) [Nat.digitChar (n % 10)]]
  simp

theorem jsNumber_natToDec (n : Nat) : jsNumber (natToDec n) = some n := by
  by_cases hn : n = 0
  · subst hn
    decide
  · unfold natToDec
    rw [if_neg hn]
    unfold jsNumber
    rw [if_neg (natToDecAux_ne_nil n n hn hn)]
    have hall : (natToDecAux n n []).all Char.isDigit = true := by
      rw [List.all_eq_true]
      intro c hc
      obtain ⟨d, hd, rfl⟩ := natToDecAux_digitsOf n n c hc
      exact (digitChar_spec d hd).1
    rw [if_pos hall, decVal_natToDecAux n n (Nat.lt_pow_self (by norm_num) n)]

theorem isAscii_natToDec (n : Nat) : isAsciiStr (natToDec n) := by
  by_cases hn : n = 0
  · subst hn
    decide
  · unfold natToDec
    rw [if_neg hn]
    intro c hc
    obtain ⟨d, hd, rfl⟩ := natToDecAux_digitsOf n n c hc
    have := (digitChar_spec d hd).2
    omega

theorem decodeToken_split (sig : String → String → String) (lookup : String → Option User)
    (t a b c : String) (hsplit : splitDot t = [a, b, c]) :
    decodeToken sig lookup t =
      (jsNumber (decodeBase64 b)).elim none (fun ts =>
        if ts ≤ maxDateMillis then
          (lookup (decodeBase64 a)).elim none (fun u =>
            (nobiUnsign sig u.salt t).elim none (fun hd =>
              if hd = a ++ "." ++ b then
                some { snowflake := decodeBase64 a, timestamp := ts, hmac := hd, user := u }
              else none))
        else none) := by
  unfold decodeToken
  rw [hsplit]
  simp only [List.length_cons, List.length_nil, List.getD_cons_zero, List.getD_cons_succ,
    Nat.zero_add]
  rw [if_pos trivial]
  cases jsNumber (decodeBase64 b) with
  | none => rfl
  | some ts =>
    simp only [Option.elim]
    by_cases hr : ts ≤ maxDateMillis
    · rw [if_pos hr, if_pos hr]
      cases lookup (decodeBase64 a) with
      | none => rfl
      | some u =>
        simp only [Option.elim]
        cases nobiUnsign sig u.salt t with
        | none => rfl
        | some hd => rfl
    · rw [if_neg hr, if_neg hr]

theorem rsplit_of_three (t a b c : String) (hsplit : splitDot t = [a, b, c]) :
    rsplitDot t = some (a ++ "." ++ b, c) := by
  obtain ⟨ht, hnda, hndb, hndc⟩ := splitDot_three_inv t a b c hsplit
  apply rsplitDot_of_data
  · rw [ht]
    simp [String.data_append]
  · exact hndc

theorem decode_none_of_len (sig : String → String → String) (lookup : String → Option User)
    (t : String) (h : (splitDot t).length ≠ 3) : decodeToken sig lookup t = none := by
  unfold decodeToken
  simp [h]

theorem decode_none_of_ts_nan (sig : String → String → String) (lookup : String → Option User)
    (t a b c : String) (hs : splitDot t = [a, b, c])
    (h : jsNumber (decodeBase64 b) = none) : decodeToken sig lookup t = none := by
  rw [decodeToken_split sig lookup t a b c hs, h]
  rfl

theorem decode_none_of_ts_range (sig : String → String → String) (lookup : String → Option User)
    (t a b c : String) (ts : Nat) (hs : splitDot t = [a, b, c])
    (h : jsNumber (decodeBase64 b) = some ts) (hr : maxDateMillis < ts) :
    decodeToken sig lookup t = none := by
  rw [decodeToken_split sig lookup t a b c hs, h]
  simp only [Option.elim]
  rw [if_neg (by omega)]

theorem decode_none_of_unknown (sig : String → String → String) (lookup : String → Option User)
    (t a b c : String) (hs : splitDot t = [a, b, c])
    (h : lookup (decodeBase64 a) = none) : decodeToken sig lookup t = none := by
  rw [decodeToken_split sig lookup t a b c hs]
  cases jsNumber (decodeBase64 b) with
  | none => rfl
  | some ts =>
    simp only [Option.elim]
    split
    · rw [h]
    · rfl

theorem decode_none_of_sig (sig : String → String → String) (lookup : String → Option User)
    (t a b c : String) (u : User) (hs : splitDot t = [a, b, c])
    (hu : lookup (decodeBase64 a) = some u)
    (hmis : sig u.salt (a ++ "." ++ b) ≠ c) : decodeToken sig lookup t = none := by
  have hrs := rsplit_of_three t a b c hs
  rw [decodeToken_split sig lookup t a b c hs]
  cases jsNumber (decodeBase64 b) with
  | none => rfl
  | some ts =>
    simp only [Option.elim]
    split
    · rw [hu]
      simp [nobiUnsign, hrs, hmis]
    · rfl

theorem decode_some_inv (sig : String → String → String) (lookup : String → Option User)
    (t : String) (d : DecodedToken) (h : decodeToken sig lookup t = some d) :
    lookup (decodeBase64 ((splitDot t).getD 0 "")) = some d.user ∧
      sig d.user.salt ((splitDot t).getD 0 "" ++ "." ++ (splitDot t).getD 1 "") =
        (splitDot t).getD 2 "" := by
  by_cases hlen : (splitDot t).length = 3
  · obtain ⟨a, b, c, habc⟩ := List.length_eq_three.mp hlen
    have hrs := rsplit_of_three t a b c habc
    rw [habc]
    simp only [List.getD_cons_zero, List.getD_cons_succ]
    rw [decodeToken_split sig lookup t a b c habc] at h
    cases hjs : jsNumber (decodeBase64 b) with
    | none =>
      rw [hjs] at h
      simp [Option.elim] at h
    | some ts =>
      rw [hjs] at h
      simp only [Option.elim] at h
      by_cases hr : ts ≤ maxDateMillis
      · rw [if_pos hr] at h
        cases hlk : lookup (decodeBase64 a) with
        | none =>
          rw [hlk] at h
          simp [Option.elim] at h
        | some u =>
          rw [hlk] at h
          simp only [Option.elim] at h
          by_cases hc : sig u.salt (a ++ "." ++ b) = c
          · rw [show nobiUnsign sig u.salt t = some (a ++ "." ++ b) by
              simp [nobiUnsign, hrs, hc]] at h
            simp only [Option.elim] at h
            rw [if_pos trivial] at h
            have hdq := Option.some.inj h
            rw [← hdq]
            exact ⟨rfl, hc⟩
          · rw [show nobiUnsign sig u.salt t = none by
              simp [nobiUnsign, hrs, hc]] at h
            simp [Option.elim] at h
      · rw [if_neg hr] at h
        exact absurd h (by simp)
  · rw [decode_none_of_len sig lookup t hlen] at h
    exact absurd h (by simp)

/-- C1. Token round-trip: for a principal whose snowflake the lookup
resolves back to the same user record (secret unchanged), decoding a
freshly created token succeeds and yields that snowflake. Side
conditions of the embedding: the snowflake is ASCII (snowflakes are
decimal strings), the signature contains no dot (HMAC signatures are
base64), and the issuance instant is a representable `Date`. -/
theorem token_roundtrip (sig : String → String → String) (lookup : String → Option User)
    (P : User) (now : Nat)
    (hlook : lookup P.snowflake = some P)
    (hascii : isAsciiStr P.snowflake)
    (hsig : hasNoDot (sig P.salt (encodeBase64 P.snowflake ++ "." ++ encodeBase64 (natToDec now))))
    (hrange : now ≤ maxDateMillis) :
    ∃ d, decodeToken sig lookup (createToken sig P now) = some d ∧
      d.snowflake = P.snowflake := by
  have htok : createToken sig P now =
      (encodeBase64 P.snowflake ++ "." ++ encodeBase64 (natToDec now)) ++ "." ++
        sig P.salt (encodeBase64 P.snowflake ++ "." ++ encodeBase64 (natToDec now)) := rfl
  have hsplit : splitDot (createToken sig P now) =
      [encodeBase64 P.snowflake, encodeBase64 (natToDec now),
        sig P.salt (encodeBase64 P.snowflake ++ "." ++ encodeBase64 (natToDec now))] := by
    apply splitDot_of_data
    · rw [htok]
      simp [String.data_append]
    · exact encodeBase64_no_dot _
    · exact encodeBase64_no_dot _
    · exact hsig
  have hrs := rsplit_of_three _ _ _ _ hsplit
  refine ⟨{ snowflake := P.snowflake, timestamp := now, hmac := encodeBase64 P.snowflake ++ "." ++ encodeBase64 (natToDec now), user := P }, ?_, rfl⟩
  rw [decodeToken_split _ _ _ _ _ _ hsplit]
  rw [decodeBase64_encodeBase64 _ (isAscii_natToDec now), jsNumber_natToDec]
  simp only [Option.elim]
  rw [if_pos hrange]
  rw [decodeBase64_encodeBase64 _ hascii, hlook]
  simp only [Option.elim]
  rw [show nobiUnsign sig P.salt (createToken sig P now) =
      some (encodeBase64 P.snowflake ++ "." ++ encodeBase64 (natToDec now)) by
    simp [nobiUnsign, hrs]]
  simp only [Option.elim]
  rw [if_pos trivial]

/-- C1 witness: the round-trip instantiated on the fixture principal at a
concrete issuance instant. -/
theorem token_roundtrip_witness :
    lookupFx userFx.snowflake = some userFx ∧
      ∃ d, decodeToken sigFx lookupFx (createToken sigFx userFx 1700000000000) = some d ∧
        d.snowflake = userFx.snowflake :=
  ⟨by decide, token_roundtrip sigFx lookupFx userFx 1700000000000 (by decide) (by decide)
    (by decide) (by decide)⟩

/-- C2. Token validity invariant: a decoded token's third segment is
exactly the signature of segments 1–2 (with their delimiter) under the
resolved principal's current secret; and any three-segment token whose
third segment differs from that re-signature — a token issued under a
rotated-away secret, or an altered signature — decodes to `Invalid`. -/
theorem token_validity_invariant :
    (∀ (sig : String → String → String) (lookup : String → Option User) (token : String)
        (d : DecodedToken), decodeToken sig lookup token = some d →
        lookup (decodeBase64 ((splitDot token).getD 0 "")) = some d.user ∧
          sig d.user.salt ((splitDot token).getD 0 "" ++ "." ++ (splitDot token).getD 1 "") =
            (splitDot token).getD 2 "") ∧
      (∀ (sig : String → String → String) (lookup : String → Option User) (a b c : String)
          (u : User), hasNoDot a → hasNoDot b → hasNoDot c →
          lookup (decodeBase64 a) = some u → sig u.salt (a ++ "." ++ b) ≠ c →
          decodeToken sig lookup (a ++ "." ++ b ++ "." ++ c) = none) := by
  constructor
  · exact fun sig lookup token d h => decode_some_inv sig lookup token d h
  · intro sig lookup a b c u ha hb hc hu hmis
    have hsplit : splitDot (a ++ "." ++ b ++ "." ++ c) = [a, b, c] := by
      apply splitDot_of_data
      · simp [String.data_append]
      · exact ha
      · exact hb
      · exact hc
    exact decode_none_of_sig sig lookup _ a b c u hsplit hu hmis

/-- C2 witness: a three-segment token over the fixture principal whose
third segment is not the current-secret signature decodes to `Invalid`. -/
theorem token_validity_invariant_witness :
    decodeToken sigFx lookupFx ("MTIz" ++ "." ++ "MA==" ++ "." ++ "BAD") = none :=
  token_validity_invariant.2 sigFx lookupFx "MTIz" "MA==" "BAD" userFx (by decide) (by decide)
    (by decide) (by decide) (by decide)

/-- C3 counterexample: a string that is not composed of three non-empty
segments (its timestamp segment is empty) is nonetheless accepted:
the empty segment base64-decodes to the empty string, which the `* 1`
coercion turns into epoch 0, and the signature verifies, so `decodeToken`
returns a decoded token instead of `Invalid`. -/
theorem decode_accepts_empty_segment :
    ("" ∈ splitDot ("MTIz.." ++ sigFx "KEY" "MTIz.") ∧
        (splitDot ("MTIz.." ++ sigFx "KEY" "MTIz.")).length = 3) ∧
      (decodeToken sigFx lookupFx ("MTIz.." ++ sigFx "KEY" "MTIz.")).isSome = true := by
  decide

/-- C3 (amended). Uniform failure outcome: `decodeToken` is a total
function into `Option`; a split-count other than three, a timestamp
segment whose decoded text does not coerce to a number, a coerced instant
beyond the `Date` range, an unknown principal, and a signature mismatch
each return the one `none` outcome. (Exactly-three-segment strings with
empty segments are not rejected by format and may decode successfully.) -/
theorem decode_failure_modes :
    (∀ (sig : String → String → String) (lookup : String → Option User) (t : String),
        (splitDot t).length ≠ 3 → decodeToken sig lookup t = none) ∧
      (∀ (sig : String → String → String) (lookup : String → Option User) (t a b c : String),
        splitDot t = [a, b, c] → jsNumber (decodeBase64 b) = none →
        decodeToken sig lookup t = none) ∧
      (∀ (sig : String → String → String) (lookup : String → Option User) (t a b c : String)
          (ts : Nat), splitDot t = [a, b, c] → jsNumber (decodeBase64 b) = some ts →
        maxDateMillis < ts → decodeToken sig lookup t = none) ∧
      (∀ (sig : String → String → String) (lookup : String → Option User) (t a b c : String),
        splitDot t = [a, b, c] → lookup (decodeBase64 a) = none →
        decodeToken sig lookup t = none) ∧
      (∀ (sig : String → String → String) (lookup : String → Option User) (t a b c : String)
          (u : User), splitDot t = [a, b, c] → lookup (decodeBase64 a) = some u →
        sig u.salt (a ++ "." ++ b) ≠ c → decodeToken sig lookup t = none) :=
  ⟨decode_none_of_len, decode_none_of_ts_nan, decode_none_of_ts_range,
    decode_none_of_unknown, decode_none_of_sig⟩

/-- C3 witness: a two-segment string fails by count. -/
theorem decode_failure_modes_witness :
    decodeToken sigFx lookupFx "a.b" = none :=
  decode_failure_modes.1 sigFx lookupFx "a.b" (by decide)

theorem chainExec_zero_pending (fuel : Nat) (gs : List GuardSpec) (s : ChainState) :
    chainExec fuel gs s 0 = some s := by cases fuel <;> rfl

theorem chainExec_succ (fuel : Nat) (gs : List GuardSpec) (s : ChainState) (p : Nat) :
    chainExec (fuel + 1) gs s (p + 1) =
      chainExec fuel gs (chainStep gs s).1 (p + (chainStep gs s).2) := rfl

theorem chainStep_handler (gs : List GuardSpec) (s : ChainState) (hg : gs[s.idx]? = none) :
    chainStep gs s =
      ({ s with idx := s.idx + 1, trace := s.trace ++ [ChainEvent.handlerRun] }, 0) := by
  simp only [chainStep, hg]

theorem chainStep_dup (gs : List GuardSpec) (s : ChainState) (g : GuardSpec)
    (hg : gs[s.idx]? = some g) (hprev : s.prev = some g.gid) :
    chainStep gs s =
      ({ s with idx := s.idx + 1, trace := s.trace ++ [ChainEvent.handlerRun] }, 0) := by
  simp only [chainStep, hg]
  rw [if_pos hprev]

theorem chainStep_run (gs : List GuardSpec) (s : ChainState) (g : GuardSpec)
    (hg : gs[s.idx]? = some g) (hprev : ¬(s.prev = some g.gid)) :
    chainStep gs s =
      ({ idx := s.idx + 1, prev := some g.gid, trace := s.trace ++ guardEvents g },
        g.proceeds) := by
  simp only [chainStep, hg]
  rw [if_neg hprev]

theorem sumFromIdx_succ_le (gs : List GuardSpec) (idx : Nat) :
    sumFromIdx gs (idx + 1) ≤ sumFromIdx gs idx := by
  unfold sumFromIdx
  rw [← List.tail_drop]
  cases h : gs.drop idx with
  | nil => simp
  | cons g t =>
    simp only [List.tail_cons, List.map_cons, List.sum_cons]
    exact Nat.le_add_left _ _

theorem drop_get_cons : ∀ (gs : List GuardSpec) (idx : Nat) (g : GuardSpec),
    gs[idx]? = some g → gs.drop idx = g :: gs.drop (idx + 1)
  | [], _, g, h => by simp at h
  | x :: gs, 0, g, h => by
    have hx : x = g := by simpa using h
    simp [hx]
  | x :: gs, idx + 1, g, h => by
    have ih := drop_get_cons gs idx g (by simpa using h)
    simpa [List.drop] using ih

theorem sumFromIdx_get (gs : List GuardSpec) (idx : Nat) (g : GuardSpec)
    (h : gs[idx]? = some g) :
    sumFromIdx gs idx = g.proceeds + sumFromIdx gs (idx + 1) := by
  unfold sumFromIdx
  rw [drop_get_cons gs idx g h]
  simp

theorem chainExec_isSome (fuel : Nat) : ∀ (gs : List GuardSpec) (s : ChainState) (pending : Nat),
    pending + sumFromIdx gs s.idx ≤ fuel → (chainExec fuel gs s pending).isSome = true := by
  induction fuel with
  | zero =>
    intro gs s pending h
    have hp : pending = 0 := by omega
    subst hp
    rw [chainExec_zero_pending]
    rfl
  | succ f ih =>
    intro gs s pending h
    cases pending with
    | zero =>
      rw [chainExec_zero_pending]
      rfl
    | succ p =>
      rw [chainExec_succ]
      cases hg : gs[s.idx]? with
      | none =>
        rw [chainStep_handler gs s hg]
        apply ih
        show p + 0 + sumFromIdx gs (s.idx + 1) ≤ f
        have hle := sumFromIdx_succ_le gs s.idx
        omega
      | some g =>
        by_cases hprev : s.prev = some g.gid
        · rw [chainStep_dup gs s g hg hprev]
          apply ih
          show p + 0 + sumFromIdx gs (s.idx + 1) ≤ f
          have hle := sumFromIdx_succ_le gs s.idx
          omega
        · rw [chainStep_run gs s g hg hprev]
          apply ih
          show p + g.proceeds + sumFromIdx gs (s.idx + 1) ≤ f
          have heq := sumFromIdx_get gs s.idx g hg
          omega

theorem getElem?_append_len : ∀ (l1 : List GuardSpec) (x : GuardSpec) (l2 : List GuardSpec),
    (l1 ++ x :: l2)[l1.length]? = some x
  | [], _, _ => by simp
  | y :: l1, x, l2 => by
    show (y :: (l1 ++ x :: l2))[l1.length + 1]? = some x
    rw [List.getElem?_cons_succ]
    exact getElem?_append_len l1 x l2

theorem chain_seq : ∀ (todo done : List GuardSpec) (prev : Option Nat) (tr : List ChainEvent),
    (∀ g ∈ todo, g.proceeds = 1) →
    List.Chain' (fun a b => a.gid ≠ b.gid) todo →
    (∀ g, todo.head? = some g → prev ≠ some g.gid) →
    ∃ sf, chainExec (todo.length + 1) (done ++ todo)
        { idx := done.length, prev := prev, trace := tr } 1 = some sf ∧
      sf.trace = tr ++ (todo.map guardEvents).flatten ++ [ChainEvent.handlerRun]
  | [], done, prev, tr, _, _, _ => by
    have hg : (done ++ ([] : List GuardSpec))[done.length]? = none := by
      rw [List.append_nil]
      exact List.getElem?_eq_none le_rfl
    have hcs := chainStep_handler (done ++ ([] : List GuardSpec))
      { idx := done.length, prev := prev, trace := tr } hg
    refine ⟨{ idx := done.length + 1, prev := prev, trace := tr ++ [ChainEvent.handlerRun] }, ?_, ?_⟩
    · show chainExec (0 + 1) _ _ (0 + 1) = _
      rw [chainExec_succ, hcs]
      exact chainExec_zero_pending _ _ _
    · simp
  | g :: todo', done, prev, tr, hall, hchain, hhead => by
    have hprev : ¬(prev = some g.gid) := hhead g rfl
    have hp1 : g.proceeds = 1 := hall g (List.mem_cons_self g todo')
    have hg : (done ++ g :: todo')[done.length]? = some g := getElem?_append_len done g todo'
    have hcs := chainStep_run (done ++ g :: todo')
      { idx := done.length, prev := prev, trace := tr } g hg hprev
    rw [hp1] at hcs
    have hall' : ∀ g' ∈ todo', g'.proceeds = 1 :=
      fun g' hm => hall g' (List.mem_cons_of_mem g hm)
    have hchain' : List.Chain' (fun a b => a.gid ≠ b.gid) todo' := hchain.tail
    have hhead' : ∀ g', todo'.head? = some g' → (some g.gid : Option Nat) ≠ some g'.gid := by
      intro g' hh heq
      have hne : g.gid ≠ g'.gid := by
        cases todo' with
        | nil => simp [List.head?] at hh
        | cons hd t =>
          have hgd : g' = hd := by simpa [List.head?] using hh.symm
          subst hgd
          exact (List.chain'_cons.mp hchain).1
      exact hne (Option.some.inj heq)
    obtain ⟨sf, hrun, htr⟩ := chain_seq todo' (done ++ [g]) (some g.gid) (tr ++ guardEvents g)
      hall' hchain' hhead'
    refine ⟨sf, ?_, ?_⟩
    · show chainExec (todo'.length + 1 + 1) _ _ (0 + 1) = some sf
      rw [chainExec_succ, hcs]
      have happ : (done ++ [g]) ++ todo' = done ++ g :: todo' := by simp
      have hlen : (done ++ [g]).length = done.length + 1 := by simp
      rw [← happ, ← hlen]
      exact hrun
    · rw [htr]
      simp

/-- C4. Guard-chain re-entrancy safety: when the guard fetched at the
current index is the previously invoked guard reference, the step runs
the terminal handler instead of the guard; and a chain run completes
within `1 + total proceed calls` steps regardless of how often guards
call `proceed`, so redundant `proceed()` calls never recurse unboundedly. -/
theorem guard_chain_reentrancy :
    (∀ (gs : List GuardSpec) (s : ChainState) (g : GuardSpec),
        gs[s.idx]? = some g → s.prev = some g.gid →
        chainStep gs s =
          ({ s with idx := s.idx + 1, trace := s.trace ++ [ChainEvent.handlerRun] }, 0)) ∧
      ∀ gs : List GuardSpec, (chainStart (1 + sumProceeds gs) gs).isSome = true := by
  constructor
  · intro gs s g hg hprev
    exact chainStep_dup gs s g hg hprev
  · intro gs
    unfold chainStart
    apply chainExec_isSome
    show 1 + sumFromIdx gs 0 ≤ 1 + sumProceeds gs
    unfold sumProceeds
    omega

/-- C4 witness: a single guard that calls `proceed` twice; the duplicate
fetch is answered by the terminal handler, and the run terminates. -/
theorem guard_chain_reentrancy_witness :
    chainStep [guardFx] { idx := 0, prev := some 7, trace := [] } =
      ({ idx := 1, prev := some 7, trace := [ChainEvent.handlerRun] }, 0) ∧
      (chainStart (1 + sumProceeds [guardFx]) [guardFx]).isSome = true :=
  ⟨guard_chain_reentrancy.1 [guardFx] { idx := 0, prev := some 7, trace := [] } guardFx
      (by decide) (by decide),
    guard_chain_reentrancy.2 [guardFx]⟩

/-- C5. Guard-chain ordering and rejection: a chain of distinct guards
that each call `proceed()` once runs them strictly in declaration order
from index 0 and then, the index having passed the guard count, invokes
the terminal handler; and in a chain `[G1, G2]` where G1 proceeds and G2
writes a rejection without proceeding, the run ends after G2's write and
the terminal handler event never occurs. -/
theorem guard_chain_ordering :
    (∀ gs : List GuardSpec, (∀ g ∈ gs, g.proceeds = 1) →
        List.Chain' (fun a b => a.gid ≠ b.gid) gs →
        ∃ sf, chainStart (gs.length + 1) gs = some sf ∧
          sf.trace = (gs.map guardEvents).flatten ++ [ChainEvent.handlerRun]) ∧
      ∀ (g1 g2 : GuardSpec) (r : String), g1.proceeds = 1 → g1.writes = none →
        g2.proceeds = 0 → g2.writes = some r → g1.gid ≠ g2.gid →
        ∃ sf, chainStart (1 + sumProceeds [g1, g2]) [g1, g2] = some sf ∧
          sf.trace = [ChainEvent.guardRun g1.gid, ChainEvent.guardRun g2.gid,
            ChainEvent.write r] ∧
          ChainEvent.handlerRun ∉ sf.trace := by
  constructor
  · intro gs hall hchain
    have hh : ∀ g, gs.head? = some g → (none : Option Nat) ≠ some g.gid := by
      intro g _ h
      exact Option.noConfusion h
    obtain ⟨sf, hrun, htr⟩ := chain_seq gs [] none [] hall hchain hh
    refine ⟨sf, ?_, ?_⟩
    · unfold chainStart
      simpa using hrun
    · simpa using htr
  · intro g1 g2 r hp1 hw1 hp2 hw2 hne
    have hfuel : 1 + sumProceeds [g1, g2] = 2 := by
      simp [sumProceeds, sumFromIdx, hp1, hp2]
    rw [hfuel]
    have hg1 : ([g1, g2] : List GuardSpec)[(0 : Nat)]? = some g1 := by simp
    have hg2 : ([g1, g2] : List GuardSpec)[(1 : Nat)]? = some g2 := by simp
    have hcs1 := chainStep_run [g1, g2] { idx := 0, prev := none, trace := [] } g1 hg1
      (by simp)
    rw [hp1] at hcs1
    have hcs2 := chainStep_run [g1, g2]
      { idx := 1, prev := some g1.gid, trace := guardEvents g1 } g2 hg2 (by simp [hne])
    rw [hp2] at hcs2
    refine ⟨{ idx := 2, prev := some g2.gid, trace := guardEvents g1 ++ guardEvents g2 }, ?_, ?_, ?_⟩
    · unfold chainStart
      show chainExec (1 + 1) _ _ (0 + 1) = _
      rw [chainExec_succ, hcs1]
      simp only [Nat.zero_add, List.nil_append, Nat.add_zero]
      show chainExec (0 + 1) _ _ (0 + 1) = _
      rw [chainExec_succ, hcs2]
      simp only [Nat.add_zero]
      exact chainExec_zero_pending _ _ _
    · simp [guardEvents, hw1, hw2]
    · simp [guardEvents, hw1, hw2]

/-- C5 witness: the two fixture guards G1 (proceeds) and G2 (rejects):
only their events are observed and the handler never runs. -/
theorem guard_chain_ordering_witness :
    ∃ sf, chainStart (1 + sumProceeds [guardFx1, guardFx2]) [guardFx1, guardFx2] = some sf ∧
      sf.trace = [ChainEvent.guardRun guardFx1.gid, ChainEvent.guardRun guardFx2.gid,
        ChainEvent.write "rejected"] ∧
      ChainEvent.handlerRun ∉ sf.trace :=
  guard_chain_ordering.2 guardFx1 guardFx2 "rejected" (by decide) (by decide) (by decide)
    (by decide) (by decide)

/-- C6 counterexample: loading two well-formed descriptors with identical
`(method, path)` appends both layers (size 2, not 1) and logs no warning,
refuting first-wins-with-warning registration. -/
theorem duplicate_registration_counterexample :
    (loadRoutes { layers := [], warnings := [] }
        [RawRoute.valid routeFx1, RawRoute.valid routeFx2]).layers.length = 2 ∧
      (loadRoutes { layers := [], warnings := [] }
        [RawRoute.valid routeFx1, RawRoute.valid routeFx2]).warnings = [] := by
  decide

/-- C6 (amended). Duplicate route registration is not detected:
`loadRoute` performs no `(method, path)` collision check, so a colliding
descriptor is appended as well — the express layer stack grows by one per
descriptor and no warning is logged; dispatch over the stack is
first-match, so the first-registered handler still serves the path. -/
theorem duplicate_registration_appends (s : ServerState) (r1 r2 : Route)
    (hm : r2.opts.method = r1.opts.method) (hp : r2.opts.path = r1.opts.path) :
    (loadRoutes s [RawRoute.valid r1, RawRoute.valid r2]).layers.length =
        s.layers.length + 2 ∧
      (loadRoutes s [RawRoute.valid r1, RawRoute.valid r2]).warnings = s.warnings ∧
      dispatchLookup (loadRoutes { layers := [], warnings := [] }
          [RawRoute.valid r1, RawRoute.valid r2])
        r1.opts.method r1.opts.path = some r1.handlerId := by
  refine ⟨?_, ?_, ?_⟩
  · simp [loadRoutes, loadRoute]
  · simp [loadRoutes, loadRoute]
  · simp [loadRoutes, loadRoute, dispatchLookup, List.find?]

/-- C6 witness: the amended behaviour on the colliding fixture routes. -/
theorem duplicate_registration_appends_witness :
    (loadRoutes { layers := [], warnings := [] }
        [RawRoute.valid routeFx1, RawRoute.valid routeFx2]).layers.length =
        ([] : List RouteLayer).length + 2 ∧
      (loadRoutes { layers := [], warnings := [] }
        [RawRoute.valid routeFx1, RawRoute.valid routeFx2]).warnings = ([] : List String) ∧
      dispatchLookup (loadRoutes { layers := [], warnings := [] }
          [RawRoute.valid routeFx1, RawRoute.valid routeFx2])
        routeFx1.opts.method routeFx1.opts.path = some routeFx1.handlerId :=
  duplicate_registration_appends { layers := [], warnings := [] } routeFx1 routeFx2
    (by decide) (by decide)

/-- C7. Error-boundary envelope: an error that carries a numeric
`statusCode` and a body (a `RestError`) is transmitted verbatim with no
logging; any other error is answered with the fixed 500 envelope whose
body holds only the tracking-reference message and the reserved code
1002 — the internal detail appears solely in the log beside that
reference, never in the response. -/
theorem error_boundary_envelope :
    (∀ (ref : String) (e : RestErrorVal) (n : Nat), e.statusCode = some n →
        errorMiddleware ref (ErrValue.rest e) = ({ status := n, body := e.body }, [])) ∧
      ∀ (ref detail : String),
        errorMiddleware ref (ErrValue.other detail) =
          ({ status := 500,
             body := RestBody.std ("Internal error occurred. Tracking number: " ++ ref) 1002 },
            ["------- error reported", "tracking ref: " ++ ref, detail, "------- eof"]) := by
  constructor
  · intro ref e n h
    simp [errorMiddleware, h]
  · intro ref detail
    simp [errorMiddleware, restErrorInternal]

/-- C7 witness: the fixture 403 error is forwarded verbatim. -/
theorem error_boundary_envelope_witness :
    errorMiddleware "abcd" (ErrValue.rest restFx) =
      ({ status := 403, body := RestBody.std "Bad" 1001 }, []) :=
  error_boundary_envelope.1 "abcd" restFx 403 (by decide)

/-- C8. End-to-end example routes: `API_V0` maps `TEST_1`/`TEST_2` to
the prefixed paths; the `TEST_1` handler answers the `n`-th request
(counting from 1) with `{test: "successful", number: n-1}`, the counter
advancing by exactly one per call; and the thrown `TEST_2` error reaches
the client as a structured 400 body carrying the reserved test code with
an empty server log (no internal detail). -/
theorem test_routes_behavior :
    List.lookup "TEST_1" apiV0 = some "/api/v0/test/1" ∧
      List.lookup "TEST_2" apiV0 = some "/api/v0/test/2" ∧
      (∀ n : Nat, 1 ≤ n →
        test1ResponseAt n = { test := "successful", number := n - 1 } ∧
          test1After n = n) ∧
      ∀ ref : String, errorMiddleware ref (ErrValue.rest test2Thrown) =
        ({ status := 400, body := RestBody.std "Success!" errorCodesTest2 }, []) := by
  have hAfter : ∀ k : Nat, test1After k = k := by
    intro k
    induction k with
    | zero => rfl
    | succ k ih => simp [test1After, test1Handler, ih]
  refine ⟨by decide, by decide, ?_, ?_⟩
  · intro n hn
    constructor
    · unfold test1ResponseAt test1Handler
      rw [hAfter]
    · exact hAfter n
  · intro ref
    simp [errorMiddleware, test2Thrown, errorCodesTest2]

/-- C8 witness: the second request sees counter value 1. -/
theorem test_routes_behavior_witness :
    test1ResponseAt 2 = { test := "successful", number := 1 } ∧ test1After 2 = 2 :=
  test_routes_behavior.2.2.1 2 (by decide)

/-- C9. `ArrayUtils.optional` wraps by truthiness, not by a null check:
every falsy value — `null`, `undefined`, `0`, the empty string, `NaN`,
`false` — yields the empty array, and every truthy value `v` yields
`[v]`. -/
theorem optional_truthiness :
    ArrayUtils.optional JSValue.vNull = [] ∧
      ArrayUtils.optional JSValue.vUndefined = [] ∧
      ArrayUtils.optional (JSValue.vNum 0) = [] ∧
      ArrayUtils.optional (JSValue.vStr "") = [] ∧
      ArrayUtils.optional JSValue.vNaN = [] ∧
      ArrayUtils.optional (JSValue.vBool false) = [] ∧
      (∀ v : JSValue, truthy v = false → ArrayUtils.optional v = []) ∧
      ∀ v : JSValue, truthy v = true → ArrayUtils.optional v = [v] := by
  refine ⟨rfl, rfl, by decide, by decide, rfl, rfl, ?_, ?_⟩
  · intro v h
    simp [ArrayUtils.optional, h]
  · intro v h
    simp [ArrayUtils.optional, h]

/-- C9 witness: a truthy string is wrapped. -/
theorem optional_truthiness_witness :
    ArrayUtils.optional (JSValue.vStr "x") = [JSValue.vStr "x"] :=
  optional_truthiness.2.2.2.2.2.2.2 (JSValue.vStr "x") (by decide)

/-- C10. `Routing.prefixPath` rewrites only `opts.path` (to
`prefix ++ "/" ++ path`), leaving method, middleware, guards, handler and
error handler untouched; `Routing.prefixPaths` applies exactly that
transformation elementwise, preserving length and order. The source's
in-place mutation of the same objects is modelled functionally. -/
theorem prefixPath_frame :
    (∀ (r : Route) (pre : String),
        (prefixPath r pre).opts.path = pre ++ "/" ++ r.opts.path ∧
          (prefixPath r pre).opts.method = r.opts.method ∧
          (prefixPath r pre).opts.classicMiddleware = r.opts.classicMiddleware ∧
          (prefixPath r pre).opts.guards = r.opts.guards ∧
          (prefixPath r pre).handlerId = r.handlerId ∧
          (prefixPath r pre).errorId = r.errorId) ∧
      ∀ (rs : List Route) (pre : String),
        prefixPaths rs pre = rs.map (fun r => prefixPath r pre) ∧
          (prefixPaths rs pre).length = rs.length := by
  constructor
  · intro r pre
    exact ⟨rfl, rfl, rfl, rfl, rfl, rfl⟩
  · intro rs pre
    exact ⟨rfl, by simp [prefixPaths]⟩
